import Mathlib

/-!
Verification development for a Flask activity-tracking backend
(`app.py`, `extensions.py`, `models.py`, `blueprints/api_v1.py`).

The handlers of `blueprints/api_v1.py` are shallowly embedded as pure Lean
functions over an explicit session/database state:

* A Python `datetime` is a point on the proleptic-Gregorian timeline with
  microsecond resolution; it is embedded as `Micros`, an integer count of
  microseconds.  `datetime.date()` floors to the containing calendar day
  (`dateOf`); `int(timedelta.total_seconds())` truncates toward zero
  (`Int.tdiv`), with the float division of `total_seconds()` treated as exact.
* The SQLAlchemy session is embedded as a pair of database snapshots
  (`committed`, `pending`); `commit` atomically publishes `pending` (or fails,
  when the persistence oracle `okFlag` says so), `rollback` resets `pending`
  to `committed`.  Queries read the session state (`pending`), which equals
  `committed` at request start.
* `werkzeug.security.generate_password_hash` / `check_password_hash` and
  `create_access_token` are external primitives; the handlers are
  parameterized by them (`hash`, `chk`, `tokenFor`).
* `models.ActivityRecord` has columns id, title, start_time, end_time,
  duration_seconds, memo (nullable), type (NOT NULL, never written by any
  handler), user_id — and no `app` column.  Consequently, in the create
  handler `ActivityRecord(…, app=data['app'], …)` raises
  `TypeError: app is an invalid keyword argument` (SQLAlchemy's declarative
  constructor rejects unknown keywords), and in the update handler the
  expression `data.get('app', record.app)` raises `AttributeError` when it
  eagerly evaluates `record.app`.  Both exceptions land in the handlers'
  `except` blocks, which roll back and answer 500.  These control-flow facts
  are embedded directly at the points where they occur.
-/

namespace ActivityBE

/-- A Python `datetime`: microseconds on the UTC timeline. -/
abbrev Micros := Int

/-- Microseconds per calendar day. -/
def usPerDay : Int := 86400000000

/-- `datetime.date()`, as a day index: floor division of the timestamp by the
day length (Python dates are the calendar days containing the instant). -/
def dateOf (t : Micros) : Int := Int.fdiv t usPerDay

/-- `int((end_time_obj - start_time_obj).total_seconds())` from
`ActivityList.post` line 87: the timedelta in seconds, truncated toward zero
(Python `int()` of a float truncates toward zero). -/
def durationFromTime (st et : Micros) : Int := Int.tdiv (et - st) 1000000

/-- Row of the `user` table (`models.User`): id, username (unique, NOT NULL),
password_hash (NOT NULL). -/
structure UserRow where
  id : Int
  username : String
  password_hash : String
deriving DecidableEq, Repr

/-- Row of the `activity_record` table (`models.ActivityRecord`).  `memo` is
nullable; `type` is declared NOT NULL in the model but no handler ever writes
it, so it is embedded as an `Option`. -/
structure RecordRow where
  id : Int
  title : String
  start_time : Micros
  end_time : Micros
  duration_seconds : Int
  memo : Option String
  rtype : Option String
  user_id : Int
deriving DecidableEq, Repr

/-- The relational store: both tables plus autoincrement counters. -/
structure DB where
  users : List UserRow
  records : List RecordRow
  userNextId : Int
  recNextId : Int
deriving DecidableEq, Repr

/-- The SQLAlchemy session: the committed database and the session's own
(pending) view including uncommitted changes. -/
structure Session where
  committed : DB
  pending : DB
deriving DecidableEq, Repr

/-- `db.session.rollback()`: discard uncommitted changes. -/
def Session.rollbackS (s : Session) : Session := ⟨s.committed, s.committed⟩

/-- `db.session.commit()`: atomically publish the pending state, or fail
(`none`) when the persistence oracle `okFlag` reports an underlying failure.
Nothing is published on failure. -/
def Session.commitS (okFlag : Bool) (s : Session) : Option Session :=
  if okFlag then some ⟨s.pending, s.pending⟩ else none

/-- JSON response bodies the handlers produce. -/
inductive Body where
  | err (msg : String)
  | message (msg : String)
  | record (r : RecordRow)
  | loginOk (id : Int) (username : String) (token : String)
deriving DecidableEq, Repr

/-- Result of one request: either a response produced by the handler itself,
or an exception that escaped the handler (left to the framework).  Both carry
the session as the handler left it. -/
inductive Outcome where
  | resp (s : Session) (status : Nat) (body : Body)
  | uncaught (s : Session)
deriving DecidableEq, Repr

/-- The session as the handler left it. -/
def Outcome.sessionOf : Outcome → Session
  | .resp s _ _ => s
  | .uncaught s => s

/-- The HTTP status of a handler-produced response (`none` when the exception
escaped the handler). -/
def Outcome.statusOf : Outcome → Option Nat
  | .resp _ st _ => some st
  | .uncaught _ => none

/-- Whether the handler itself produced a JSON response. -/
def Outcome.isResp : Outcome → Bool
  | .resp _ _ _ => true
  | .uncaught _ => false

/-- The JSON body of a handler-produced response. -/
def Outcome.bodyOf : Outcome → Option Body
  | .resp _ _ b => some b
  | .uncaught _ => none

/-- Python truthiness of an optional string (`None` and `""` are falsy). -/
def truthy : Option String → Bool
  | some s => !(s == "")
  | none => false

/-- `UserRegister.post`: validate both fields truthy, reject duplicate
usernames, insert and commit.  There is no `try/except` around the
persistence calls: a failing commit escapes the handler uncaught, with the
pending insert still in the session. -/
def register (hash : String → String) (okFlag : Bool) (s : Session)
    (username password : Option String) : Outcome :=
  if !(truthy username) || !(truthy password) then
    .resp s 400 (.err "username과 password 필수")
  else
    match username, password with
    | some un, some pw =>
      if (s.pending.users.find? (fun u => u.username == un)).isSome then
        .resp s 400 (.err "이미 존재하는 사용자")
      else
        let user : UserRow := ⟨s.pending.userNextId, un, hash pw⟩
        let pending2 : DB := ⟨s.pending.users ++ [user], s.pending.records,
          s.pending.userNextId + 1, s.pending.recNextId⟩
        let s2 : Session := ⟨s.committed, pending2⟩
        match Session.commitS okFlag s2 with
        | some s3 => .resp s3 201 (.message "회원가입 성공")
        | none => .uncaught s2
    | _, _ => .resp s 400 (.err "username과 password 필수")

/-- The undifferentiated bad-credentials body of `UserLogin.post`. -/
def loginFailBody : Body := .err "아이디 또는 비밀번호가 잘못됨"

/-- `UserLogin.post`: look the username up; `if not user or not
user.check_password(password)` answers the same 401 body for an unknown
username and for a failing hash check; otherwise issue a token for the
user id. -/
def login (chk : String → String → Bool) (tokenFor : Int → String)
    (s : Session) (username password : String) : Outcome :=
  match s.pending.users.find? (fun u => u.username == username) with
  | none => .resp s 401 loginFailBody
  | some user =>
    if chk user.password_hash password then
      .resp s 200 (.loginOk user.id user.username (tokenFor user.id))
    else
      .resp s 401 loginFailBody

/-- Request body of `ActivityList.post` (`request.json`): each field is
`none` when the key is absent.  Timestamps are already parsed to `Micros`
(the handler's `fromisoformat` with `Z` normalized).  The handler never reads
`rtype`. -/
structure CreateBody where
  title : Option String
  start_time : Option Micros
  end_time : Option Micros
  app : Option String
  duration_seconds : Option Int
  memo : Option String
  rtype : Option String
deriving DecidableEq, Repr

/-- `ActivityList.post`: after the required-field check, the handler parses
the timestamps and computes `duration_from_time`, then evaluates
`ActivityRecord(title=…, app=…, …)` — which raises `TypeError`, because
`models.ActivityRecord` has no `app` column and SQLAlchemy's declarative
constructor rejects unknown keyword arguments.  The `except` block rolls the
session back and answers 500.  No create request ever reaches
`db.session.add`, so none ever persists a record. -/
def createRecord (s : Session) (_uid : Int) (d : CreateBody) : Outcome :=
  if d.title.isNone || d.start_time.isNone || d.end_time.isNone ||
      d.app.isNone || d.duration_seconds.isNone then
    .resp s 400 (.err "필수 필드(title, start_time, end_time, app, duration_seconds) 누락")
  else
    match d.start_time, d.end_time with
    | some st, some et =>
      let _duration_from_time := durationFromTime st et
      .resp s.rollbackS 500
        (.err "TypeError: app is an invalid keyword argument for ActivityRecord")
    | _, _ =>
      .resp s 400 (.err "필수 필드(title, start_time, end_time, app, duration_seconds) 누락")

/-- `ActivityRecord.query.filter_by(id=record_id, user_id=user_id).first()`:
the ownership-filtered single-record lookup shared by get, put and delete. -/
def findOwned (db : DB) (rid uid : Int) : Option RecordRow :=
  db.records.find? (fun r => r.id == rid && r.user_id == uid)

/-- The shared 404 body of `ActivityDetail` get, put and delete. -/
def notFoundBody : Body := .err "기록을 찾을 수 없거나 권한이 없습니다."

/-- Request body of `ActivityDetail.put`.  `memo : Option (Option String)`
distinguishes an absent `memo` key (`none`) from a present key with value
`null` (`some none`) — `data.get('memo', record.memo)` distinguishes exactly
these.  Timestamp fields model `data.get(…)` followed by a truthiness test. -/
structure UpdateBody where
  title : Option String
  app : Option String
  start_time : Option Micros
  end_time : Option Micros
  memo : Option (Option String)
deriving DecidableEq, Repr

/-- `ActivityDetail.put`: 404 (same body as delete/get) when no record with
this id is owned by the caller.  Otherwise the `try` block runs
`record.title = data.get('title', record.title)` and then evaluates
`data.get('app', record.app)` — the eager `record.app` raises
`AttributeError`, because `models.ActivityRecord` has no `app` attribute.
The `except` block rolls back (discarding the title assignment) and answers
500: no update ever reaches the memo assignment, the duration recomputation
or `db.session.commit`, and no field change ever survives. -/
def updateRecord (s : Session) (uid rid : Int) (_d : UpdateBody) : Outcome :=
  match findOwned s.pending rid uid with
  | none => .resp s 404 notFoundBody
  | some _ =>
    .resp s.rollbackS 500
      (.err "AttributeError: ActivityRecord object has no attribute app")

/-- `ActivityDetail.delete`: 404 when no record with this id is owned by the
caller; otherwise delete that row and commit, rolling back with a 500 error
body when the commit fails. -/
def deleteRecord (okFlag : Bool) (s : Session) (uid rid : Int) : Outcome :=
  match findOwned s.pending rid uid with
  | none => .resp s 404 notFoundBody
  | some _ =>
    let pending2 : DB := ⟨s.pending.users,
      s.pending.records.filter (fun r => !(r.id == rid && r.user_id == uid)),
      s.pending.userNextId, s.pending.recNextId⟩
    let s2 : Session := ⟨s.committed, pending2⟩
    match Session.commitS okFlag s2 with
    | some s3 => .resp s3 200 (.message "기록 삭제 성공")
    | none => .resp s2.rollbackS 500 (.err "IntegrityError")

/-- `ActivityDetail.get`: 404 when no record with this id is owned by the
caller, else the record's `to_dict()`. -/
def getRecord (s : Session) (uid rid : Int) : Outcome :=
  match findOwned s.pending rid uid with
  | none => .resp s 404 notFoundBody
  | some r => .resp s 200 (.record r)

/-! ### Python dicts as insertion-ordered association lists

A CPython dict is insertion-ordered: assigning to an existing key updates its
value in place, assigning a fresh key appends it.  The summary handler only
ever writes through `d[k] = v` and `d[k] = d.get(k, v0) + x`, embedded below.
-/

/-- `d.get(k)`: value at `k`, if present. -/
def alookup [DecidableEq K] (k : K) : List (K × V) → Option V
  | [] => none
  | (k', v) :: rest => if k = k' then some v else alookup k rest

/-- `d[k] = v`: replace in place, or append a fresh key. -/
def setKey [DecidableEq K] (k : K) (v : V) : List (K × V) → List (K × V)
  | [] => [(k, v)]
  | (k', v') :: rest =>
    if k = k' then (k', v) :: rest else (k', v') :: setKey k v rest

/-- `d[k] = d.get(k, 0) + x`: add `x` at key `k`, treating a missing key
as `0` and appending it. -/
def upsert [DecidableEq K] (k : K) (x : Int) : List (K × Int) → List (K × Int)
  | [] => [(k, x)]
  | (k', v') :: rest =>
    if k = k' then (k', v' + x) :: rest else (k', v') :: upsert k x rest

/-- Sum of a dict's values, `sum(d.values())`. -/
def sumVals (d : List (K × Int)) : Int := (d.map Prod.snd).sum

/-! ### Python's `sorted`

`sorted` is stable.  A stable sort with respect to a total preorder is
uniquely determined, so Timsort is embedded as a stable insertion sort:
`le x y = true` means `x` may stay before `y` (so for `sorted(l, key=k)` one
takes `le x y := k x ≤ k y`, and for `reverse=True` `le x y := k y ≤ k x`;
ties leave the earlier element first in both cases, as in Python). -/

/-- Insert `x` before the first element it may precede. -/
def insertSorted (le : α → α → Bool) (x : α) : List α → List α
  | [] => [x]
  | y :: ys => if le x y then x :: y :: ys else y :: insertSorted le x ys

/-- Stable sort by `le` (insertion sort, stable by construction). -/
def stableSort (le : α → α → Bool) : List α → List α
  | [] => []
  | x :: xs => insertSorted le x (stableSort le xs)

/-! ### `ActivitySummary.get` -/

/-- `now - datetime.timedelta(days=days)`. -/
def startDate (now : Micros) (days : Nat) : Micros := now - days * usPerDay

/-- The record set the summary endpoint fetches: the caller's records whose
`end_time` is at or after the window start, newest `end_time` first (the
query's `order_by(end_time.desc())`, embedded as a stable descending sort). -/
def fetchWindow (db : DB) (uid : Int) (now : Micros) (days : Nat) :
    List RecordRow :=
  stableSort (fun a b => decide (b.end_time ≤ a.end_time))
    (db.records.filter
      (fun r => r.user_id == uid && decide (startDate now days ≤ r.end_time)))

/-- `for i in range(days): daily_seconds[(now - timedelta(days=i)).date()] = 0`. -/
def initDaily (now : Micros) (days : Nat) : List (Int × Int) :=
  (List.range days).map (fun i : Nat => (dateOf (now - (i : Int) * usPerDay), 0))

/-- The `daily_seconds` dict after the per-record accumulation loop
(`daily_seconds[date] = daily_seconds.get(date, 0) + record.duration_seconds`,
keyed by the date of the record's `end_time`). -/
def dailySeconds (now : Micros) (days : Nat) (recs : List RecordRow) :
    List (Int × Int) :=
  recs.foldl (fun d r => upsert (dateOf r.end_time) r.duration_seconds d)
    (initDaily now days)

/-- `daily_breakdown`, alias `daily_total_summary` in the response:
`sorted(daily_seconds.items())` — ascending by date (ISO date strings sort
chronologically; the keys are distinct). -/
def dailyTotalSummary (now : Micros) (days : Nat) (recs : List RecordRow) :
    List (Int × Int) :=
  stableSort (fun a b => decide (a.1 ≤ b.1)) (dailySeconds now days recs)

/-- The `activity_breakdown` per-title totals: for each record,
`activity_breakdown[title]['total_seconds'] += record.duration_seconds`,
starting from `0` on first encounter (the accumulated `records` lists feed
only the dead `recent_records` computation and are dropped from the
response). -/
def groupTotals (recs : List RecordRow) : List (String × Int) :=
  recs.foldl (fun d r => upsert r.title r.duration_seconds d) []

/-- `top_activities`: the per-title totals sorted by
`sorted(…, key=total_seconds, reverse=True)` — descending total, ties stable
in encounter order; each entry keeps only the title and the total. -/
def topActivities (recs : List RecordRow) : List (String × Int) :=
  stableSort (fun a b => decide (b.2 ≤ a.2)) (groupTotals recs)

/-- `for i in range(days): daily_stack_breakdown[date] = {}`. -/
def initStack (now : Micros) (days : Nat) : List (Int × List (String × Int)) :=
  (List.range days).map (fun i : Nat => (dateOf (now - (i : Int) * usPerDay), []))

/-- `daily_stack_breakdown`: per day, per title, summed seconds
(`d[date] = d.get(date, {})`, then `d[date][title] = d[date].get(title, 0) +
record.duration_seconds`). -/
def dailyStack (now : Micros) (days : Nat) (recs : List RecordRow) :
    List (Int × List (String × Int)) :=
  recs.foldl
    (fun d r =>
      let date := dateOf r.end_time
      setKey date (upsert r.title r.duration_seconds ((alookup date d).getD [])) d)
    (initStack now days)

/-- The response of `ActivitySummary.get`. -/
structure Summary where
  daily_total_summary : List (Int × Int)
  top_activities : List (String × Int)
  daily_stack_breakdown : List (Int × List (String × Int))
deriving DecidableEq, Repr

/-- `ActivitySummary.get`: fetch the trailing-window record set once and
derive the three views from it. -/
def summarize (db : DB) (uid : Int) (now : Micros) (days : Nat) : Summary :=
  let records := fetchWindow db uid now days
  ⟨dailyTotalSummary now days records, topActivities records,
    dailyStack now days records⟩

/-- Summed `duration_seconds` of the records of `recs` ending on day `k`. -/
def dayTotal (recs : List RecordRow) (k : Int) : Int :=
  ((recs.filter (fun r => decide (dateOf r.end_time = k))).map
    (fun r => r.duration_seconds)).sum

/-- Deduplication keeping first occurrences: the key order of a Python dict
populated by the accumulation loops. -/
def ddFirst [DecidableEq K] : List K → List K
  | [] => []
  | k :: ks => k :: (ddFirst ks).filter (fun x => decide (x ≠ k))

/-- Index of the first occurrence of `k` in `l` (`l.length` when absent). -/
def firstIdx [DecidableEq K] (k : K) : List K → Nat
  | [] => 0
  | x :: xs => if x = k then 0 else firstIdx k xs + 1

/-! ### Lemmas about the stable sort -/

theorem perm_insertSorted (le : α → α → Bool) (x : α) :
    ∀ l : List α, (insertSorted le x l).Perm (x :: l)
  | [] => List.Perm.refl _
  | y :: ys => by
    by_cases h : le x y = true
    · simp [insertSorted, h]
    · simp only [insertSorted, h, if_false]
      exact ((perm_insertSorted le x ys).cons y).trans (List.Perm.swap x y ys)

theorem perm_stableSort (le : α → α → Bool) :
    ∀ l : List α, (stableSort le l).Perm l
  | [] => List.Perm.refl _
  | x :: xs =>
    (perm_insertSorted le x (stableSort le xs)).trans
      ((perm_stableSort le xs).cons x)

theorem pairwise_insertSorted (R : α → α → Prop) (le : α → α → Bool) (x : α)
    (htrans : ∀ a b c, R a b → R b c → R a c) :
    ∀ l : List α, l.Pairwise R →
      (∀ y ∈ l, le x y = true → R x y) →
      (∀ y ∈ l, le x y = false → R y x) →
      (insertSorted le x l).Pairwise R
  | [], _, _, _ => List.pairwise_singleton R x
  | y :: ys, hl, hxy, hyx => by
    rcases List.pairwise_cons.mp hl with ⟨hyys, hys⟩
    by_cases h : le x y = true
    · simp only [insertSorted, h, if_true]
      refine List.pairwise_cons.mpr ⟨?_, hl⟩
      intro z hz
      rcases List.mem_cons.mp hz with rfl | hz2
      · exact hxy z (by simp) h
      · exact htrans x y z (hxy y (by simp) h) (hyys z hz2)
    · simp only [insertSorted, h, if_false]
      refine List.pairwise_cons.mpr ⟨?_, ?_⟩
      · intro z hz
        rcases List.mem_cons.mp ((perm_insertSorted le x ys).mem_iff.mp hz)
          with rfl | hz2
        · exact hyx y (by simp) (by simpa using h)
        · exact hyys z hz2
      · exact pairwise_insertSorted R le x htrans ys hys
          (fun z hz => hxy z (by simp [hz])) (fun z hz => hyx z (by simp [hz]))

theorem pairwise_stableSort (R : α → α → Prop) (le : α → α → Bool)
    (htrans : ∀ a b c, R a b → R b c → R a c) :
    ∀ l : List α,
      l.Pairwise (fun a b => (le a b = true → R a b) ∧ (le a b = false → R b a)) →
      (stableSort le l).Pairwise R
  | [], _ => List.Pairwise.nil
  | x :: xs, hl => by
    rcases List.pairwise_cons.mp hl with ⟨hx, hxs⟩
    refine pairwise_insertSorted R le x htrans _
      (pairwise_stableSort R le htrans xs hxs) ?_ ?_
    · intro y hy hle
      exact (hx y ((perm_stableSort le xs).mem_iff.mp hy)).1 hle
    · intro y hy hle
      exact (hx y ((perm_stableSort le xs).mem_iff.mp hy)).2 hle

/-! ### Lemmas about dict operations -/

theorem sumVals_upsert [DecidableEq K] (k : K) (x : Int) :
    ∀ d : List (K × Int), sumVals (upsert k x d) = sumVals d + x
  | [] => by simp [upsert, sumVals]
  | (k', v') :: rest => by
    by_cases h : k = k'
    · simp [upsert, h, sumVals]
      ring
    · simp only [upsert, h, if_false]
      have ih := sumVals_upsert k x rest
      simp only [sumVals, List.map_cons, List.sum_cons] at *
      rw [ih]
      ring

theorem keysOf_upsert [DecidableEq K] (k : K) (x : Int) :
    ∀ d : List (K × Int),
      (upsert k x d).map Prod.fst =
        if k ∈ d.map Prod.fst then d.map Prod.fst else d.map Prod.fst ++ [k]
  | [] => by simp [upsert]
  | (k', v') :: rest => by
    by_cases h : k = k'
    · simp [upsert, h]
    · simp only [upsert, h, if_false, List.map_cons, List.mem_cons]
      rw [keysOf_upsert k x rest]
      by_cases hm : k ∈ rest.map Prod.fst <;> simp [hm, h]

theorem alookup_upsert_self [DecidableEq K] (k : K) (x : Int) :
    ∀ d : List (K × Int),
      alookup k (upsert k x d) = some ((alookup k d).getD 0 + x)
  | [] => by simp [upsert, alookup]
  | (k', v') :: rest => by
    by_cases h : k = k'
    · simp [upsert, h, alookup]
    · simp only [upsert, h, if_false, alookup]
      exact alookup_upsert_self k x rest

theorem alookup_upsert_ne [DecidableEq K] {q k : K} (x : Int) (h : q ≠ k) :
    ∀ d : List (K × Int), alookup q (upsert k x d) = alookup q d
  | [] => by simp [upsert, alookup, h]
  | (k', v') :: rest => by
    by_cases h' : k = k'
    · subst h'
      simp [upsert, alookup, h]
    · simp only [upsert, h', if_false, alookup]
      by_cases hq : q = k'
      · simp [hq]
      · simp only [hq, if_false]
        exact alookup_upsert_ne x h rest

theorem mem_of_alookup_eq_some [DecidableEq K] {k : K} {v : V} :
    ∀ {d : List (K × V)}, alookup k d = some v → (k, v) ∈ d
  | [], h => by simp [alookup] at h
  | (k', v') :: rest, h => by
    by_cases hk : k = k'
    · subst hk
      simp only [alookup, if_pos rfl] at h
      obtain rfl := Option.some.inj h
      exact List.mem_cons_self _ _
    · simp only [alookup, hk, if_false] at h
      exact List.mem_cons_of_mem _ (mem_of_alookup_eq_some h)

theorem alookup_eq_some_of_mem [DecidableEq K] {k : K} {v : V} :
    ∀ {d : List (K × V)}, (d.map Prod.fst).Nodup → (k, v) ∈ d →
      alookup k d = some v
  | [], _, h => by simp at h
  | (k', v') :: rest, hnd, h => by
    rcases List.mem_cons.mp h with heq | hmem
    · cases heq
      simp [alookup]
    · have hk : k ≠ k' := by
        intro hkk
        subst hkk
        have : k ∈ rest.map Prod.fst :=
          List.mem_map.mpr ⟨(k, v), hmem, rfl⟩
        exact (List.nodup_cons.mp hnd).1 this
      simp only [alookup, hk, if_false]
      exact alookup_eq_some_of_mem (List.nodup_cons.mp hnd).2 hmem

theorem mem_keysOf_iff_alookup [DecidableEq K] (k : K) :
    ∀ d : List (K × V), k ∈ d.map Prod.fst ↔ (alookup k d).isSome
  | [] => by simp [alookup]
  | (k', v') :: rest => by
    by_cases hk : k = k'
    · simp [alookup, hk]
    · simp only [List.map_cons, List.mem_cons, alookup, hk, if_false]
      rw [mem_keysOf_iff_alookup k rest]
      simp [hk]

theorem alookup_of_const [DecidableEq K] (v0 : V) :
    ∀ (d : List (K × V)), (∀ p ∈ d, p.2 = v0) → ∀ k,
      alookup k d = if k ∈ d.map Prod.fst then some v0 else none
  | [], _, k => by simp [alookup]
  | (k', v') :: rest, h, k => by
    have hv' : v' = v0 := h (k', v') (by simp)
    by_cases hk : k = k'
    · simp [alookup, hk, hv']
    · simp only [alookup, hk, if_false, List.map_cons, List.mem_cons]
      rw [alookup_of_const v0 rest (fun p hp => h p (List.mem_cons_of_mem _ hp)) k]
      by_cases hm : k ∈ rest.map Prod.fst <;> simp [hm, hk]

theorem nodup_keysOf_upsert [DecidableEq K] (k : K) (x : Int)
    (d : List (K × Int)) (h : (d.map Prod.fst).Nodup) :
    ((upsert k x d).map Prod.fst).Nodup := by
  rw [keysOf_upsert]
  by_cases hm : k ∈ d.map Prod.fst
  · simpa [hm] using h
  · rw [if_neg hm]
    refine List.Nodup.append h (List.nodup_singleton k) ?_
    intro a ha hak
    exact hm ((List.mem_singleton.mp hak) ▸ ha)

theorem length_le_length_upsert [DecidableEq K] (k : K) (x : Int)
    (d : List (K × Int)) : d.length ≤ (upsert k x d).length := by
  have h := congrArg List.length (keysOf_upsert k x d)
  simp only [List.length_map] at h
  by_cases hm : k ∈ d.map Prod.fst
  · rw [if_pos hm] at h
    simp only [List.length_map] at h
    omega
  · rw [if_neg hm, List.length_append] at h
    simp only [List.length_map, List.length_singleton] at h
    omega

/-! ### Lemmas about the accumulation loops (`foldl` of `upsert`) -/

theorem sumVals_foldUpsert [DecidableEq K] (f : α → K) (g : α → Int) :
    ∀ (recs : List α) (init : List (K × Int)),
      sumVals (recs.foldl (fun d r => upsert (f r) (g r) d) init) =
        sumVals init + (recs.map g).sum
  | [], init => by simp
  | r :: rest, init => by
    simp only [List.foldl_cons, List.map_cons, List.sum_cons]
    rw [sumVals_foldUpsert f g rest (upsert (f r) (g r) init), sumVals_upsert]
    ring

theorem alookupD_foldUpsert [DecidableEq K] (f : α → K) (g : α → Int) (k : K) :
    ∀ (recs : List α) (init : List (K × Int)),
      (alookup k (recs.foldl (fun d r => upsert (f r) (g r) d) init)).getD 0 =
        (alookup k init).getD 0 +
          ((recs.filter (fun r => decide (f r = k))).map g).sum
  | [], init => by simp
  | r :: rest, init => by
    simp only [List.foldl_cons]
    rw [alookupD_foldUpsert f g k rest (upsert (f r) (g r) init)]
    by_cases h : f r = k
    · subst h
      rw [alookup_upsert_self]
      simp only [Option.getD_some, List.filter_cons, decide_eq_true_eq,
        if_pos rfl, List.map_cons, List.sum_cons]
      simp
      ring
    · rw [alookup_upsert_ne (g r) (fun hh => h hh.symm)]
      simp [List.filter_cons, h]

theorem mem_keysOf_foldUpsert [DecidableEq K] (f : α → K) (g : α → Int) (k : K) :
    ∀ (recs : List α) (init : List (K × Int)),
      (k ∈ (recs.foldl (fun d r => upsert (f r) (g r) d) init).map Prod.fst) ↔
        (k ∈ init.map Prod.fst ∨ ∃ r ∈ recs, f r = k)
  | [], init => by simp
  | r :: rest, init => by
    simp only [List.foldl_cons]
    rw [mem_keysOf_foldUpsert f g k rest (upsert (f r) (g r) init), keysOf_upsert]
    by_cases h : f r ∈ init.map Prod.fst
    · rw [if_pos h]
      constructor
      · rintro (hk | ⟨x, hx, hfx⟩)
        · exact Or.inl hk
        · exact Or.inr ⟨x, List.mem_cons_of_mem _ hx, hfx⟩
      · rintro (hk | ⟨x, hx, hfx⟩)
        · exact Or.inl hk
        · rcases List.mem_cons.mp hx with rfl | hx2
          · exact Or.inl (hfx ▸ h)
          · exact Or.inr ⟨x, hx2, hfx⟩
    · rw [if_neg h]
      simp only [List.mem_append, List.mem_singleton]
      constructor
      · rintro ((hk | hk) | ⟨x, hx, hfx⟩)
        · exact Or.inl hk
        · exact Or.inr ⟨r, by simp, hk.symm⟩
        · exact Or.inr ⟨x, List.mem_cons_of_mem _ hx, hfx⟩
      · rintro (hk | ⟨x, hx, hfx⟩)
        · exact Or.inl (Or.inl hk)
        · rcases List.mem_cons.mp hx with rfl | hx2
          · exact Or.inl (Or.inr hfx.symm)
          · exact Or.inr ⟨x, hx2, hfx⟩

theorem nodup_keysOf_foldUpsert [DecidableEq K] (f : α → K) (g : α → Int) :
    ∀ (recs : List α) (init : List (K × Int)),
      (init.map Prod.fst).Nodup →
      ((recs.foldl (fun d r => upsert (f r) (g r) d) init).map Prod.fst).Nodup
  | [], init, h => h
  | r :: rest, init, h => by
    simp only [List.foldl_cons]
    exact nodup_keysOf_foldUpsert f g rest _ (nodup_keysOf_upsert _ _ _ h)

theorem length_le_length_foldUpsert [DecidableEq K] (f : α → K) (g : α → Int) :
    ∀ (recs : List α) (init : List (K × Int)),
      init.length ≤ (recs.foldl (fun d r => upsert (f r) (g r) d) init).length
  | [], init => le_refl _
  | r :: rest, init => by
    simp only [List.foldl_cons]
    exact le_trans (length_le_length_upsert (f r) (g r) init)
      (length_le_length_foldUpsert f g rest _)

/-! ### First-encounter order of dict keys -/

theorem mem_ddFirst [DecidableEq K] {x : K} :
    ∀ l : List K, x ∈ ddFirst l ↔ x ∈ l
  | [] => Iff.rfl
  | k :: ks => by
    by_cases hx : x = k
    · simp [ddFirst, hx]
    · simp only [ddFirst, List.mem_cons, List.mem_filter, decide_eq_true_eq,
        ne_eq, hx, or_false, false_or, not_false_iff, and_true]
      exact mem_ddFirst ks

theorem nodup_ddFirst [DecidableEq K] : ∀ l : List K, (ddFirst l).Nodup
  | [] => List.Pairwise.nil
  | k :: ks => by
    refine List.nodup_cons.mpr ⟨?_, List.Nodup.filter _ (nodup_ddFirst ks)⟩
    intro hk
    exact (by simpa using (List.mem_filter.mp hk).2 : k ≠ k) rfl

theorem ddFirst_filter [DecidableEq K] (p : K → Bool) :
    ∀ l : List K, ddFirst (l.filter p) = (ddFirst l).filter p
  | [] => rfl
  | k :: ks => by
    by_cases hp : p k = true
    · simp only [List.filter_cons, hp, if_true, ddFirst, ddFirst_filter p ks]
      rw [List.filter_filter, List.filter_filter]
      refine congrArg (List.cons k) (List.filter_congr ?_)
      intro x _
      exact Bool.and_comm _ _
    · simp only [List.filter_cons, hp, if_false, ddFirst, ddFirst_filter p ks,
        Bool.false_eq_true]
      rw [List.filter_filter]
      refine List.filter_congr ?_
      intro x _
      by_cases hx : x = k
      · subst hx
        simp [hp]
      · simp [hx]

theorem pairwise_firstIdx_ddFirst [DecidableEq K] :
    ∀ l : List K, (ddFirst l).Pairwise (fun a b => firstIdx a l < firstIdx b l)
  | [] => List.Pairwise.nil
  | k :: ks => by
    refine List.pairwise_cons.mpr ⟨?_, ?_⟩
    · intro b hb
      have hbk : b ≠ k := by simpa using (List.mem_filter.mp hb).2
      have hkb : ¬k = b := fun hh => hbk hh.symm
      simp [firstIdx, hkb]
    · have ih := (pairwise_firstIdx_ddFirst ks).filter
        (fun x => decide (x ≠ k))
      refine ih.imp_of_mem ?_
      intro a b ha hb hlt
      have hak : a ≠ k := by simpa using (List.mem_filter.mp ha).2
      have hbk : b ≠ k := by simpa using (List.mem_filter.mp hb).2
      have hka : ¬k = a := fun hh => hak hh.symm
      have hkb : ¬k = b := fun hh => hbk hh.symm
      simp only [firstIdx, if_neg hka, if_neg hkb]
      omega

theorem keysOf_foldUpsert [DecidableEq K] (f : α → K) (g : α → Int) :
    ∀ (recs : List α) (init : List (K × Int)),
      (recs.foldl (fun d r => upsert (f r) (g r) d) init).map Prod.fst =
        init.map Prod.fst ++
          ddFirst ((recs.map f).filter
            (fun x => decide (x ∉ init.map Prod.fst)))
  | [], init => by simp [ddFirst]
  | r :: rest, init => by
    simp only [List.foldl_cons, List.map_cons, List.filter_cons]
    rw [keysOf_foldUpsert f g rest (upsert (f r) (g r) init), keysOf_upsert]
    by_cases h : f r ∈ init.map Prod.fst
    · rw [if_pos h]
      have hd : decide (f r ∉ init.map Prod.fst) = false := by simp [h]
      rw [hd]
      simp only [Bool.false_eq_true, if_false]
    · rw [if_neg h]
      have hd : decide (f r ∉ init.map Prod.fst) = true := by simp [h]
      rw [hd, if_pos rfl]
      have hfe : (rest.map f).filter
            (fun x => decide (x ∉ init.map Prod.fst ++ [f r])) =
          ((rest.map f).filter (fun x => decide (x ∉ init.map Prod.fst))).filter
            (fun x => decide (x ≠ f r)) := by
        rw [List.filter_filter]
        refine List.filter_congr ?_
        intro x _
        by_cases hx : x = f r
        · subst hx
          simp
        · by_cases hxi : x ∈ init.map Prod.fst <;> simp [hx, hxi]
      rw [hfe, ddFirst_filter]
      simp only [ddFirst, List.append_assoc, List.singleton_append]

/-! ### Lemmas about the initialized day buckets -/

theorem usPerDay_pos : (0 : Int) < usPerDay := by norm_num [usPerDay]

theorem dateOf_sub_days (now : Micros) (i : Nat) :
    dateOf (now - i * usPerDay) = dateOf now - i := by
  unfold dateOf
  rw [Int.fdiv_eq_ediv _ (le_of_lt usPerDay_pos),
    Int.fdiv_eq_ediv _ (le_of_lt usPerDay_pos), sub_eq_add_neg, ← neg_mul,
    Int.add_mul_ediv_right _ _ (ne_of_gt usPerDay_pos)]
  ring

theorem keysOf_initDaily (now : Micros) (days : Nat) :
    (initDaily now days).map Prod.fst =
      (List.range days).map (fun i : Nat => dateOf now - (i : Int)) := by
  unfold initDaily
  rw [List.map_map]
  refine List.map_congr_left ?_
  intro i _
  exact dateOf_sub_days now i

theorem nodup_keysOf_initDaily (now : Micros) (days : Nat) :
    ((initDaily now days).map Prod.fst).Nodup := by
  rw [keysOf_initDaily]
  refine List.Nodup.map ?_ (List.nodup_range days)
  intro a b hab
  simp only at hab
  omega

theorem alookup_initDaily (now : Micros) (days : Nat) (k : Int) :
    alookup k (initDaily now days) =
      if k ∈ (initDaily now days).map Prod.fst then some 0 else none := by
  refine alookup_of_const 0 _ ?_ k
  intro p hp
  rcases List.mem_map.mp hp with ⟨i, _, rfl⟩
  rfl

theorem sumVals_initDaily (now : Micros) (days : Nat) :
    sumVals (initDaily now days) = 0 := by
  unfold sumVals initDaily
  rw [List.map_map]
  refine List.sum_eq_zero ?_
  intro x hx
  rcases List.mem_map.mp hx with ⟨i, _, rfl⟩
  rfl

theorem length_initDaily (now : Micros) (days : Nat) :
    (initDaily now days).length = days := by
  simp [initDaily]

theorem sumVals_stableSort [DecidableEq K] (le : (K × Int) → (K × Int) → Bool)
    (d : List (K × Int)) : sumVals (stableSort le d) = sumVals d :=
  ((perm_stableSort le d).map Prod.snd).sum_eq

/-! ### Claim theorems -/

/-- C1: the claim says an authenticated create request carrying all required
fields and a `type` of MANUAL or APP persists a typed record and answers 201,
while an out-of-range `type` or a missing field answers 400.  In the code the
required fields are title/start_time/end_time/app/duration_seconds, `type` is
never read or validated, and `ActivityRecord(app=…)` raises `TypeError`
(there is no `app` column), so a complete request — with `type` MANUAL or
with a `type` outside the enumeration alike — answers 500, persists nothing,
and leaves the database unchanged. -/
theorem c1_create_always_500 :
    createRecord ⟨⟨[], [], 1, 1⟩, ⟨[], [], 1, 1⟩⟩ 1
        ⟨some "Reading", some 0, some 1800000000, some "timer", some 999,
          none, some "MANUAL"⟩ =
      .resp ⟨⟨[], [], 1, 1⟩, ⟨[], [], 1, 1⟩⟩ 500
        (.err "TypeError: app is an invalid keyword argument for ActivityRecord") ∧
    (createRecord ⟨⟨[], [], 1, 1⟩, ⟨[], [], 1, 1⟩⟩ 1
        ⟨some "Reading", some 0, some 1800000000, some "timer", some 999,
          none, some "MANUAL"⟩).statusOf ≠ some 201 ∧
    (createRecord ⟨⟨[], [], 1, 1⟩, ⟨[], [], 1, 1⟩⟩ 1
        ⟨some "Reading", some 0, some 1800000000, some "timer", some 999,
          none, some "NOT_A_TYPE"⟩).statusOf = some 500 := by
  decide

/-- C2: the claim says every successfully created record stores
`floor(end_time - start_time)` in seconds, ignoring the client value.  The
handler does compute `int((end - start).total_seconds())` (line 87) before
crashing — `1800` for the spec's 30-minute example, independent of the
submitted `999` — but no record is ever successfully created (the
constructor call raises, the request answers 500 and the store stays empty),
and the computation truncates toward zero rather than flooring: for a
half-second negative interval it yields `0` where the floor is `-1`. -/
theorem c2_duration_computed_not_stored :
    durationFromTime 0 1800000000 = 1800 ∧
    (createRecord ⟨⟨[], [], 1, 1⟩, ⟨[], [], 1, 1⟩⟩ 1
        ⟨some "Reading", some 0, some 1800000000, some "timer", some 999,
          none, some "MANUAL"⟩).statusOf = some 500 ∧
    (createRecord ⟨⟨[], [], 1, 1⟩, ⟨[], [], 1, 1⟩⟩ 1
        ⟨some "Reading", some 0, some 1800000000, some "timer", some 999,
          none, some "MANUAL"⟩).sessionOf.committed.records = [] ∧
    durationFromTime 500000 0 = 0 ∧
    Int.fdiv (0 - 500000) 1000000 = -1 := by
  decide

/-- C3: the claim says a memo is never persisted on an APP record — creation
discards it and an update patching a non-null memo onto an APP record fails
with 403 leaving the record unchanged.  The update handler declares that 403
response but contains no code path producing it: on an owned APP record a
`{memo: "note"}` patch crashes at `record.app`, answers 500 (never 403), and
leaves the record unchanged only because every update crashes; at creation
there is no memo/type logic at all. -/
theorem c3_app_memo_update_500_not_403 :
    updateRecord
        ⟨⟨[], [⟨1, "YouTube", 0, 3600000000, 3600, none, some "APP", 1⟩], 1, 2⟩,
          ⟨[], [⟨1, "YouTube", 0, 3600000000, 3600, none, some "APP", 1⟩], 1, 2⟩⟩
        1 1 ⟨none, none, none, none, some (some "note")⟩ =
      .resp
        ⟨⟨[], [⟨1, "YouTube", 0, 3600000000, 3600, none, some "APP", 1⟩], 1, 2⟩,
          ⟨[], [⟨1, "YouTube", 0, 3600000000, 3600, none, some "APP", 1⟩], 1, 2⟩⟩
        500 (.err "AttributeError: ActivityRecord object has no attribute app") ∧
    (updateRecord
        ⟨⟨[], [⟨1, "YouTube", 0, 3600000000, 3600, none, some "APP", 1⟩], 1, 2⟩,
          ⟨[], [⟨1, "YouTube", 0, 3600000000, 3600, none, some "APP", 1⟩], 1, 2⟩⟩
        1 1 ⟨none, none, none, none, some (some "note")⟩).statusOf ≠ some 403 := by
  decide

/-- C10: the claim says a patch carrying `memo: null` clears the stored memo
while a patch omitting the key leaves it unchanged.  In the code the update
handler crashes at `record.app` before ever reaching the memo assignment of
line 151, so both patches answer the identical 500 response and the stored
memo stays `"old"` in both cases — the two patches are not distinguishable
and the memo is never cleared. -/
theorem c10_memo_patch_never_reached :
    updateRecord
        ⟨⟨[], [⟨1, "Study", 0, 60000000, 60, some "old", some "MANUAL", 1⟩], 1, 2⟩,
          ⟨[], [⟨1, "Study", 0, 60000000, 60, some "old", some "MANUAL", 1⟩], 1, 2⟩⟩
        1 1 ⟨none, none, none, none, some none⟩ =
      updateRecord
        ⟨⟨[], [⟨1, "Study", 0, 60000000, 60, some "old", some "MANUAL", 1⟩], 1, 2⟩,
          ⟨[], [⟨1, "Study", 0, 60000000, 60, some "old", some "MANUAL", 1⟩], 1, 2⟩⟩
        1 1 ⟨none, none, none, none, none⟩ ∧
    (updateRecord
        ⟨⟨[], [⟨1, "Study", 0, 60000000, 60, some "old", some "MANUAL", 1⟩], 1, 2⟩,
          ⟨[], [⟨1, "Study", 0, 60000000, 60, some "old", some "MANUAL", 1⟩], 1, 2⟩⟩
        1 1 ⟨none, none, none, none, some none⟩).statusOf = some 500 ∧
    (updateRecord
        ⟨⟨[], [⟨1, "Study", 0, 60000000, 60, some "old", some "MANUAL", 1⟩], 1, 2⟩,
          ⟨[], [⟨1, "Study", 0, 60000000, 60, some "old", some "MANUAL", 1⟩], 1, 2⟩⟩
        1 1 ⟨none, none, none, none, some none⟩).sessionOf.committed.records =
      [⟨1, "Study", 0, 60000000, 60, some "old", some "MANUAL", 1⟩] := by
  decide

/-- C5 counterexample: the claim includes `register` among the operations
that roll back on persistence failure and surface the error as a JSON body.
On a failing commit, `register` — the one mutating handler without a
`try/except` — lets the exception escape uncaught, with the pending insert
still sitting un-rolled-back in the session. -/
theorem c5_register_failure_escapes :
    register (fun p => String.append "h" p) false
        ⟨⟨[], [], 1, 1⟩, ⟨[], [], 1, 1⟩⟩ (some "alice") (some "pw") =
      .uncaught ⟨⟨[], [], 1, 1⟩, ⟨[⟨1, "alice", "hpw"⟩], [], 2, 1⟩⟩ ∧
    (register (fun p => String.append "h" p) false
        ⟨⟨[], [], 1, 1⟩, ⟨[], [], 1, 1⟩⟩ (some "alice") (some "pw")).isResp =
      false ∧
    (register (fun p => String.append "h" p) false
        ⟨⟨[], [], 1, 1⟩, ⟨[], [], 1, 1⟩⟩ (some "alice") (some "pw")).sessionOf.pending ≠
      (register (fun p => String.append "h" p) false
        ⟨⟨[], [], 1, 1⟩, ⟨[], [], 1, 1⟩⟩ (some "alice") (some "pw")).sessionOf.committed := by
  decide

/-- C5 amended: the three record-mutating handlers (create, update, delete)
are atomic — starting from a clean session, whatever happens (including a
failing commit for delete; create and update fail on their own), they answer
a JSON response themselves and leave the session exactly as it was, with no
partial write.  `register` is the exception the claim misses: on a failing
commit it catches nothing — no JSON error body is produced by the handler
and the pending user insert is left un-rolled-back in the session. -/
theorem c5_amended_atomicity (hash : String → String) (s : Session)
    (uid rid : Int) (d : CreateBody) (du : UpdateBody) (un pw : String)
    (hclean : s.pending = s.committed) (hun : un ≠ "") (hpw : pw ≠ "")
    (hdup : s.pending.users.find? (fun u => u.username == un) = none) :
    ((createRecord s uid d).isResp = true ∧ (createRecord s uid d).sessionOf = s) ∧
    ((updateRecord s uid rid du).isResp = true ∧
      (updateRecord s uid rid du).sessionOf = s) ∧
    ((deleteRecord false s uid rid).isResp = true ∧
      (deleteRecord false s uid rid).sessionOf = s) ∧
    ((register hash false s (some un) (some pw)).isResp = false ∧
      (register hash false s (some un) (some pw)).sessionOf.pending.users =
        s.pending.users ++ [⟨s.pending.userNextId, un, hash pw⟩]) := by
  obtain ⟨c, p⟩ := s
  simp only at hclean
  subst hclean
  have hun2 : (un == "") = false := beq_eq_false_iff_ne.mpr hun
  have hpw2 : (pw == "") = false := beq_eq_false_iff_ne.mpr hpw
  refine ⟨?_, ?_, ?_, ?_⟩
  · rcases d with ⟨t, st, et, ap, du2, me, ty⟩
    cases t <;> cases st <;> cases et <;> cases ap <;> cases du2 <;>
      simp [createRecord, Session.rollbackS, Outcome.isResp, Outcome.sessionOf]
  · cases hfo : findOwned p rid uid <;>
      simp [updateRecord, hfo, Session.rollbackS, Outcome.isResp,
        Outcome.sessionOf]
  · cases hfo : findOwned p rid uid <;>
      simp [deleteRecord, hfo, Session.commitS, Session.rollbackS,
        Outcome.isResp, Outcome.sessionOf]
  · simp only at hdup
    simp [register, truthy, hun2, hpw2, hdup, Session.commitS,
      Outcome.isResp, Outcome.sessionOf]

/-- C5 amended witness: the atomicity theorem instantiated at a concrete
clean session, an empty create body and concrete registration data. -/
theorem c5_amended_atomicity_witness :
    (createRecord ⟨⟨[], [], 1, 1⟩, ⟨[], [], 1, 1⟩⟩ 1
        ⟨none, none, none, none, none, none, none⟩).isResp = true ∧
    (register (fun q => q) false ⟨⟨[], [], 1, 1⟩, ⟨[], [], 1, 1⟩⟩
        (some "alice") (some "pw")).isResp = false := by
  have h := c5_amended_atomicity (fun q => q) ⟨⟨[], [], 1, 1⟩, ⟨[], [], 1, 1⟩⟩
    1 1 ⟨none, none, none, none, none, none, none⟩ ⟨none, none, none, none, none⟩
    "alice" "pw" rfl (by decide) (by decide) rfl
  exact ⟨h.1.1, h.2.2.2.1⟩

/-- C9: a failing login — unknown username in one session, present username
with a failing password check in another — produces the very same 401
response in both cases: same status, same body, indistinguishable to the
caller. -/
theorem c9_login_indistinguishable (chk : String → String → Bool)
    (tokenFor : Int → String) (s1 s2 : Session) (un1 pw1 un2 pw2 : String)
    (h1 : s1.pending.users.find? (fun u => u.username == un1) = none)
    (u2 : UserRow)
    (h2 : s2.pending.users.find? (fun u => u.username == un2) = some u2)
    (h2c : chk u2.password_hash pw2 = false) :
    login chk tokenFor s1 un1 pw1 = .resp s1 401 loginFailBody ∧
    login chk tokenFor s2 un2 pw2 = .resp s2 401 loginFailBody ∧
    (login chk tokenFor s1 un1 pw1).statusOf =
      (login chk tokenFor s2 un2 pw2).statusOf ∧
    (login chk tokenFor s1 un1 pw1).bodyOf =
      (login chk tokenFor s2 un2 pw2).bodyOf := by
  have e1 : login chk tokenFor s1 un1 pw1 = .resp s1 401 loginFailBody := by
    unfold login
    rw [h1]
  have e2 : login chk tokenFor s2 un2 pw2 = .resp s2 401 loginFailBody := by
    unfold login
    rw [h2]
    simp [h2c]
  exact ⟨e1, e2, by rw [e1, e2]; rfl, by rw [e1, e2]; rfl⟩

/-- C9 witness: the indistinguishability theorem at a concrete user table —
an unknown username and a wrong password against the stored hash produce the
identical 401 response. -/
theorem c9_login_indistinguishable_witness :
    login (fun h q => h == q) (fun i => toString i)
        ⟨⟨[⟨1, "alice", "secret"⟩], [], 2, 1⟩, ⟨[⟨1, "alice", "secret"⟩], [], 2, 1⟩⟩
        "bob" "whatever" =
      .resp ⟨⟨[⟨1, "alice", "secret"⟩], [], 2, 1⟩,
        ⟨[⟨1, "alice", "secret"⟩], [], 2, 1⟩⟩ 401 loginFailBody ∧
    login (fun h q => h == q) (fun i => toString i)
        ⟨⟨[⟨1, "alice", "secret"⟩], [], 2, 1⟩, ⟨[⟨1, "alice", "secret"⟩], [], 2, 1⟩⟩
        "alice" "wrong" =
      .resp ⟨⟨[⟨1, "alice", "secret"⟩], [], 2, 1⟩,
        ⟨[⟨1, "alice", "secret"⟩], [], 2, 1⟩⟩ 401 loginFailBody := by
  have h := c9_login_indistinguishable (fun h q => h == q) (fun i => toString i)
    ⟨⟨[⟨1, "alice", "secret"⟩], [], 2, 1⟩, ⟨[⟨1, "alice", "secret"⟩], [], 2, 1⟩⟩
    ⟨⟨[⟨1, "alice", "secret"⟩], [], 2, 1⟩, ⟨[⟨1, "alice", "secret"⟩], [], 2, 1⟩⟩
    "bob" "whatever" "alice" "wrong" (by decide) ⟨1, "alice", "secret"⟩
    (by decide) (by decide)
  exact ⟨h.1, h.2.1⟩

/-- C6: get, put and delete act only on records owned by the authenticated
caller.  When no record with the requested id belongs to the caller —
whether the id does not exist at all or every record with that id belongs to
another user — all three answer the identical 404 status and body; update
and delete leave other users' committed rows untouched in every case; and a
successful get only ever returns a record owned by the caller. -/
theorem c6_ownership_and_identical_404 (s : Session) (uid rid : Int)
    (d : UpdateBody) (okFlag : Bool) :
    ((∀ r ∈ s.pending.records, r.id = rid → r.user_id ≠ uid) →
      getRecord s uid rid = .resp s 404 notFoundBody ∧
      updateRecord s uid rid d = .resp s 404 notFoundBody ∧
      deleteRecord okFlag s uid rid = .resp s 404 notFoundBody) ∧
    (s.pending = s.committed →
      (updateRecord s uid rid d).sessionOf.committed.records.filter
          (fun r => !(r.user_id == uid)) =
        s.committed.records.filter (fun r => !(r.user_id == uid)) ∧
      (deleteRecord okFlag s uid rid).sessionOf.committed.records.filter
          (fun r => !(r.user_id == uid)) =
        s.committed.records.filter (fun r => !(r.user_id == uid))) ∧
    (∀ r : RecordRow, getRecord s uid rid = .resp s 200 (.record r) →
      r.user_id = uid ∧ r ∈ s.pending.records) := by
  refine ⟨?_, ?_, ?_⟩
  · intro h
    have hfo : findOwned s.pending rid uid = none := by
      refine List.find?_eq_none.mpr ?_
      intro r hr
      simp only [Bool.and_eq_true, beq_iff_eq, not_and]
      intro hid
      exact h r hr hid
    exact ⟨by simp [getRecord, hfo], by simp [updateRecord, hfo],
      by simp [deleteRecord, hfo]⟩
  · intro hclean
    obtain ⟨c, p⟩ := s
    simp only at hclean
    subst hclean
    constructor
    · cases hfo : findOwned p rid uid <;>
        simp [updateRecord, hfo, Session.rollbackS, Outcome.sessionOf]
    · cases hfo : findOwned p rid uid
      · simp [deleteRecord, hfo, Outcome.sessionOf]
      · cases okFlag
        · simp [deleteRecord, hfo, Session.commitS, Session.rollbackS,
            Outcome.sessionOf]
        · simp only [deleteRecord, hfo, Session.commitS, if_true,
            Outcome.sessionOf]
          rw [List.filter_filter]
          refine List.filter_congr ?_
          intro r _
          by_cases hu : r.user_id = uid
          · simp [hu]
          · simp [hu]
  · intro r h
    cases hfo : findOwned s.pending rid uid with
    | none => simp [getRecord, hfo] at h
    | some r0 =>
      simp only [getRecord, hfo, Outcome.resp.injEq, Body.record.injEq,
        true_and] at h
      subst h
      have hp := List.find?_some hfo
      simp only [Bool.and_eq_true, beq_iff_eq] at hp
      exact ⟨hp.2, List.mem_of_find?_eq_some hfo⟩

/-- C6 witness: with one record (id 5) owned by user 2, caller 1 receives
the identical 404 response for the non-owned id 5 and for the nonexistent
id 99, from get, put and delete alike. -/
theorem c6_ownership_witness :
    getRecord
        ⟨⟨[], [⟨5, "T", 0, 10, 5, none, some "MANUAL", 2⟩], 1, 6⟩,
          ⟨[], [⟨5, "T", 0, 10, 5, none, some "MANUAL", 2⟩], 1, 6⟩⟩ 1 5 =
      .resp ⟨⟨[], [⟨5, "T", 0, 10, 5, none, some "MANUAL", 2⟩], 1, 6⟩,
        ⟨[], [⟨5, "T", 0, 10, 5, none, some "MANUAL", 2⟩], 1, 6⟩⟩ 404 notFoundBody ∧
    getRecord
        ⟨⟨[], [⟨5, "T", 0, 10, 5, none, some "MANUAL", 2⟩], 1, 6⟩,
          ⟨[], [⟨5, "T", 0, 10, 5, none, some "MANUAL", 2⟩], 1, 6⟩⟩ 1 99 =
      .resp ⟨⟨[], [⟨5, "T", 0, 10, 5, none, some "MANUAL", 2⟩], 1, 6⟩,
        ⟨[], [⟨5, "T", 0, 10, 5, none, some "MANUAL", 2⟩], 1, 6⟩⟩ 404 notFoundBody ∧
    updateRecord
        ⟨⟨[], [⟨5, "T", 0, 10, 5, none, some "MANUAL", 2⟩], 1, 6⟩,
          ⟨[], [⟨5, "T", 0, 10, 5, none, some "MANUAL", 2⟩], 1, 6⟩⟩ 1 5
        ⟨none, none, none, none, none⟩ =
      .resp ⟨⟨[], [⟨5, "T", 0, 10, 5, none, some "MANUAL", 2⟩], 1, 6⟩,
        ⟨[], [⟨5, "T", 0, 10, 5, none, some "MANUAL", 2⟩], 1, 6⟩⟩ 404 notFoundBody ∧
    deleteRecord true
        ⟨⟨[], [⟨5, "T", 0, 10, 5, none, some "MANUAL", 2⟩], 1, 6⟩,
          ⟨[], [⟨5, "T", 0, 10, 5, none, some "MANUAL", 2⟩], 1, 6⟩⟩ 1 99 =
      .resp ⟨⟨[], [⟨5, "T", 0, 10, 5, none, some "MANUAL", 2⟩], 1, 6⟩,
        ⟨[], [⟨5, "T", 0, 10, 5, none, some "MANUAL", 2⟩], 1, 6⟩⟩ 404 notFoundBody := by
  have h5 := (c6_ownership_and_identical_404
    ⟨⟨[], [⟨5, "T", 0, 10, 5, none, some "MANUAL", 2⟩], 1, 6⟩,
      ⟨[], [⟨5, "T", 0, 10, 5, none, some "MANUAL", 2⟩], 1, 6⟩⟩ 1 5
    ⟨none, none, none, none, none⟩ true).1 (by decide)
  have h99 := (c6_ownership_and_identical_404
    ⟨⟨[], [⟨5, "T", 0, 10, 5, none, some "MANUAL", 2⟩], 1, 6⟩,
      ⟨[], [⟨5, "T", 0, 10, 5, none, some "MANUAL", 2⟩], 1, 6⟩⟩ 1 99
    ⟨none, none, none, none, none⟩ true).1 (by decide)
  exact ⟨h5.1, h99.1, h5.2.1, h99.2.2⟩

/-- C7: for any fetched record set, the values of the daily totals dict sum
to the same quantity as the `top_activities` totals, and both equal the sum
of `duration_seconds` over all included records — the initialized day
buckets contribute zero, each record lands in exactly one day bucket and in
exactly one title group, and the final sorts only permute the entries. -/
theorem c7_sum_consistency (now : Micros) (days : Nat) (recs : List RecordRow) :
    sumVals (dailyTotalSummary now days recs) =
      (recs.map (fun r => r.duration_seconds)).sum ∧
    sumVals (topActivities recs) =
      (recs.map (fun r => r.duration_seconds)).sum := by
  constructor
  · calc sumVals (dailyTotalSummary now days recs)
        = sumVals (dailySeconds now days recs) := sumVals_stableSort _ _
      _ = sumVals (initDaily now days) +
            (recs.map (fun r => r.duration_seconds)).sum :=
        sumVals_foldUpsert (fun r : RecordRow => dateOf r.end_time)
          (fun r : RecordRow => r.duration_seconds) recs (initDaily now days)
      _ = (recs.map (fun r => r.duration_seconds)).sum := by
        rw [sumVals_initDaily, zero_add]
  · calc sumVals (topActivities recs)
        = sumVals (groupTotals recs) := sumVals_stableSort _ _
      _ = sumVals ([] : List (String × Int)) +
            (recs.map (fun r => r.duration_seconds)).sum :=
        sumVals_foldUpsert (fun r : RecordRow => r.title)
          (fun r : RecordRow => r.duration_seconds) recs []
      _ = (recs.map (fun r => r.duration_seconds)).sum := by
        simp [sumVals]

/-- C4 counterexample: with `days = 7`, `now` on day 8 at 12:00 and a single
record of duration `-5` ending on day 1 at 13:00 — inside the trailing
window, since the window starts at day 1, 12:00, but on a calendar day the
initialization loop never created — `daily_total_summary` has 8 entries, not
7, and carries the negative entry `(1, -5)`: the claim's `exactly days
entries, each ≥ 0` fails on both counts. -/
theorem c4_counterexample :
    ((summarize ⟨[], [⟨1, "PintOS", 0, 133200000000, -5, none, some "APP", 1⟩], 1, 2⟩
        1 734400000000 7).daily_total_summary).length = 8 ∧
    (1, -5) ∈ (summarize ⟨[], [⟨1, "PintOS", 0, 133200000000, -5, none, some "APP", 1⟩], 1, 2⟩
        1 734400000000 7).daily_total_summary ∧
    ¬(((summarize ⟨[], [⟨1, "PintOS", 0, 133200000000, -5, none, some "APP", 1⟩], 1, 2⟩
          1 734400000000 7).daily_total_summary).length = 7 ∧
      ∀ p ∈ (summarize ⟨[], [⟨1, "PintOS", 0, 133200000000, -5, none, some "APP", 1⟩], 1, 2⟩
          1 734400000000 7).daily_total_summary, 0 ≤ p.2) := by
  decide

/-- C4 amended: `daily_total_summary` contains at least `days` entries: one
entry for each of the `days` calendar days `dateOf now - i` (`0 ≤ i < days`),
whose total is the summed duration of the fetched records ending that day —
`0` for a day with no records — plus one extra entry for each further
calendar day on which some fetched record ends (possible, since the window
start lies inside an earlier calendar day and records may also end after
`now`).  Every entry equals the summed durations of the records ending on
its day, so all entries are ≥ 0 whenever every fetched record has a
nonnegative duration (durations are not otherwise constrained). -/
theorem c4_amended_daily_totals (db : DB) (uid : Int) (now : Micros)
    (days : Nat) :
    days ≤ (summarize db uid now days).daily_total_summary.length ∧
    (∀ i : Nat, i < days →
      (dateOf now - (i : Int),
        dayTotal (fetchWindow db uid now days) (dateOf now - (i : Int))) ∈
        (summarize db uid now days).daily_total_summary) ∧
    (∀ p ∈ (summarize db uid now days).daily_total_summary,
      p.2 = dayTotal (fetchWindow db uid now days) p.1) ∧
    ((∀ r ∈ fetchWindow db uid now days, 0 ≤ r.duration_seconds) →
      ∀ p ∈ (summarize db uid now days).daily_total_summary, 0 ≤ p.2) := by
  have hperm : ((summarize db uid now days).daily_total_summary).Perm
      (dailySeconds now days (fetchWindow db uid now days)) :=
    perm_stableSort _ _
  have hnodup : ((dailySeconds now days (fetchWindow db uid now days)).map
      Prod.fst).Nodup :=
    nodup_keysOf_foldUpsert (fun r : RecordRow => dateOf r.end_time)
      (fun r : RecordRow => r.duration_seconds) (fetchWindow db uid now days)
      (initDaily now days) (nodup_keysOf_initDaily now days)
  have hval : ∀ p ∈ dailySeconds now days (fetchWindow db uid now days),
      p.2 = dayTotal (fetchWindow db uid now days) p.1 := by
    intro p hp
    obtain ⟨k, v⟩ := p
    have hlk : alookup k (dailySeconds now days (fetchWindow db uid now days)) =
        some v := alookup_eq_some_of_mem hnodup hp
    have hD : (alookup k (dailySeconds now days (fetchWindow db uid now days))).getD 0 =
        (alookup k (initDaily now days)).getD 0 +
          (((fetchWindow db uid now days).filter
            (fun r => decide (dateOf r.end_time = k))).map
              (fun r => r.duration_seconds)).sum :=
      alookupD_foldUpsert (fun r : RecordRow => dateOf r.end_time)
        (fun r : RecordRow => r.duration_seconds) k (fetchWindow db uid now days)
        (initDaily now days)
    rw [hlk, alookup_initDaily] at hD
    have hz : ((if k ∈ (initDaily now days).map Prod.fst then some 0
        else none).getD 0 : Int) = 0 := by
      split <;> rfl
    rw [hz, zero_add] at hD
    simpa [dayTotal] using hD
  refine ⟨?_, ?_, ?_, ?_⟩
  · calc days = (initDaily now days).length := (length_initDaily now days).symm
      _ ≤ (dailySeconds now days (fetchWindow db uid now days)).length :=
        length_le_length_foldUpsert (fun r : RecordRow => dateOf r.end_time)
          (fun r : RecordRow => r.duration_seconds)
          (fetchWindow db uid now days) (initDaily now days)
      _ = (summarize db uid now days).daily_total_summary.length :=
        hperm.length_eq.symm
  · intro i hi
    have hk : dateOf now - (i : Int) ∈ (initDaily now days).map Prod.fst := by
      rw [keysOf_initDaily]
      exact List.mem_map.mpr ⟨i, List.mem_range.mpr hi, rfl⟩
    have hmem : dateOf now - (i : Int) ∈
        (dailySeconds now days (fetchWindow db uid now days)).map Prod.fst :=
      (mem_keysOf_foldUpsert (fun r : RecordRow => dateOf r.end_time)
        (fun r : RecordRow => r.duration_seconds)
        (dateOf now - (i : Int)) (fetchWindow db uid now days)
        (initDaily now days)).mpr (Or.inl hk)
    obtain ⟨v, hv⟩ := Option.isSome_iff_exists.mp
      ((mem_keysOf_iff_alookup _ _).mp hmem)
    have hpmem : (dateOf now - (i : Int), v) ∈
        dailySeconds now days (fetchWindow db uid now days) :=
      mem_of_alookup_eq_some hv
    have hveq : v = dayTotal (fetchWindow db uid now days)
        (dateOf now - (i : Int)) := hval _ hpmem
    exact hperm.mem_iff.mpr (hveq ▸ hpmem)
  · intro p hp
    exact hval p (hperm.mem_iff.mp hp)
  · intro hnn p hp
    rw [hval p (hperm.mem_iff.mp hp)]
    refine List.sum_nonneg ?_
    intro x hx
    rcases List.mem_map.mp hx with ⟨r, hr, rfl⟩
    exact hnn r (List.mem_filter.mp hr).1

/-- C4 amended witness: the amended theorem at a one-record store — day 8,
noon, a 600-second record ending the same day: the initialized day buckets
are present and every total is nonnegative. -/
theorem c4_amended_daily_totals_witness :
    (7 : Nat) ≤ (summarize
        ⟨[], [⟨1, "Reading", 0, 734000000000, 600, none, some "MANUAL", 1⟩], 1, 2⟩
        1 734400000000 7).daily_total_summary.length ∧
    (dateOf 734400000000 - (0 : Int),
        dayTotal (fetchWindow
          ⟨[], [⟨1, "Reading", 0, 734000000000, 600, none, some "MANUAL", 1⟩], 1, 2⟩
          1 734400000000 7) (dateOf 734400000000 - (0 : Int))) ∈
      (summarize
        ⟨[], [⟨1, "Reading", 0, 734000000000, 600, none, some "MANUAL", 1⟩], 1, 2⟩
        1 734400000000 7).daily_total_summary ∧
    ∀ p ∈ (summarize
        ⟨[], [⟨1, "Reading", 0, 734000000000, 600, none, some "MANUAL", 1⟩], 1, 2⟩
        1 734400000000 7).daily_total_summary, 0 ≤ p.2 := by
  have h := c4_amended_daily_totals
    ⟨[], [⟨1, "Reading", 0, 734000000000, 600, none, some "MANUAL", 1⟩], 1, 2⟩
    1 734400000000 7
  exact ⟨h.1, h.2.1 0 (by decide), h.2.2.2 (by decide)⟩

theorem keysOf_groupTotals (recs : List RecordRow) :
    (groupTotals recs).map Prod.fst = ddFirst (recs.map (fun r => r.title)) := by
  have h : (groupTotals recs).map Prod.fst =
      ([] : List (String × Int)).map Prod.fst ++
        ddFirst ((recs.map (fun r => r.title)).filter
          (fun x => decide (x ∉ ([] : List (String × Int)).map Prod.fst))) :=
    keysOf_foldUpsert (fun r : RecordRow => r.title)
      (fun r : RecordRow => r.duration_seconds) recs []
  rw [h]
  have hps : ((recs.map (fun r => r.title)).filter
      (fun x => decide (x ∉ ([] : List (String × Int)).map Prod.fst))) =
      recs.map (fun r => r.title) := by
    refine List.filter_eq_self.mpr ?_
    intro a _
    simp
  rw [hps]
  simp

theorem pairwise_firstIdx_groupTotals (recs : List RecordRow) :
    (groupTotals recs).Pairwise (fun a b =>
      firstIdx a.1 (recs.map (fun r => r.title)) <
        firstIdx b.1 (recs.map (fun r => r.title))) := by
  have h := pairwise_firstIdx_ddFirst (recs.map (fun r => r.title))
  rw [← keysOf_groupTotals] at h
  exact (@List.pairwise_map (String × Int) String Prod.fst
    (fun a b => firstIdx a (recs.map (fun r => r.title)) <
      firstIdx b (recs.map (fun r => r.title)))
    (groupTotals recs)).mp h

theorem groupTotals_val (recs : List RecordRow) :
    ∀ p ∈ groupTotals recs,
      p.2 = ((recs.filter (fun r => decide (r.title = p.1))).map
        (fun r => r.duration_seconds)).sum := by
  intro p hp
  obtain ⟨t, v⟩ := p
  have hnd : ((groupTotals recs).map Prod.fst).Nodup :=
    nodup_keysOf_foldUpsert (fun r : RecordRow => r.title)
      (fun r : RecordRow => r.duration_seconds) recs [] (by simp)
  have hlk : alookup t (groupTotals recs) = some v :=
    alookup_eq_some_of_mem hnd hp
  have hD : (alookup t (groupTotals recs)).getD 0 =
      (alookup t ([] : List (String × Int))).getD 0 +
        ((recs.filter (fun r => decide (r.title = t))).map
          (fun r => r.duration_seconds)).sum :=
    alookupD_foldUpsert (fun r : RecordRow => r.title)
      (fun r : RecordRow => r.duration_seconds) t recs []
  rw [hlk] at hD
  simpa [alookup] using hD

/-- C8: `top_activities` is the fetched record set grouped by title — one
entry per distinct title, its total the summed `duration_seconds` of that
title's records, and nothing but title and total in each entry — sorted by
descending total with ties kept stable in first-encounter order of the
titles within the fetched set. -/
theorem c8_top_activities_spec (recs : List RecordRow) :
    ((topActivities recs).map Prod.fst).Nodup ∧
    (∀ t : String, t ∈ (topActivities recs).map Prod.fst ↔
      t ∈ recs.map (fun r => r.title)) ∧
    (∀ p ∈ topActivities recs,
      p.2 = ((recs.filter (fun r => decide (r.title = p.1))).map
        (fun r => r.duration_seconds)).sum) ∧
    (topActivities recs).Pairwise (fun a b =>
      b.2 < a.2 ∨ (a.2 = b.2 ∧
        firstIdx a.1 (recs.map (fun r => r.title)) <
          firstIdx b.1 (recs.map (fun r => r.title)))) := by
  have hperm : (topActivities recs).Perm (groupTotals recs) :=
    perm_stableSort _ _
  have hpermk : ((topActivities recs).map Prod.fst).Perm
      ((groupTotals recs).map Prod.fst) := hperm.map _
  refine ⟨?_, ?_, ?_, ?_⟩
  · exact hpermk.nodup_iff.mpr (keysOf_groupTotals recs ▸ nodup_ddFirst _)
  · intro t
    rw [hpermk.mem_iff, keysOf_groupTotals, mem_ddFirst]
  · intro p hp
    exact groupTotals_val recs p (hperm.mem_iff.mp hp)
  · refine pairwise_stableSort _ _ ?_ (groupTotals recs) ?_
    · intro a b c hab hbc
      rcases hab with hab | ⟨hab1, hab2⟩ <;>
        rcases hbc with hbc | ⟨hbc1, hbc2⟩
      · exact Or.inl (by omega)
      · exact Or.inl (by omega)
      · exact Or.inl (by omega)
      · exact Or.inr ⟨by omega, by omega⟩
    · refine (pairwise_firstIdx_groupTotals recs).imp ?_
      intro a b hq
      constructor
      · intro hle
        have hba : b.2 ≤ a.2 := of_decide_eq_true hle
        rcases lt_or_eq_of_le hba with hlt | heq
        · exact Or.inl hlt
        · exact Or.inr ⟨heq.symm, hq⟩
      · intro hle
        have hba : ¬(b.2 ≤ a.2) := of_decide_eq_false hle
        exact Or.inl (lt_of_not_le hba)

/-- C8 witness: the grouping part of the specification instantiated at a
three-record set with a duplicated title — the total reported for title A is
the sum of its two records' durations. -/
theorem c8_top_activities_spec_witness :
    (7 : Int) = ((([⟨1, "A", 0, 10, 5, none, none, 1⟩,
        ⟨2, "B", 0, 20, 7, none, none, 1⟩,
        ⟨3, "A", 0, 30, 2, none, none, 1⟩] : List RecordRow).filter
          (fun r => decide (r.title = "A"))).map
        (fun r => r.duration_seconds)).sum := by
  have h := (c8_top_activities_spec [⟨1, "A", 0, 10, 5, none, none, 1⟩,
    ⟨2, "B", 0, 20, 7, none, none, 1⟩,
    ⟨3, "A", 0, 30, 2, none, none, 1⟩]).2.2.1 ("A", 7) (by decide)
  exact h

end ActivityBE
